import Mathlib

/-!
Shallow embedding of the serial-communications core of the LED matrix
controller (`arduino_src/led_matrix_controller/comms.h` / `comms.cpp`).

Strings (Arduino `String`) are modelled as `List Char`; machine integers
scanned by `sscanf` as unbounded `Int` (the `state` field is folded to
`Bool` exactly as the C assignment `msg.state = state` does, i.e. `state ≠ 0`);
`millis()` timestamps as `Nat`, with the unsigned 32-bit subtraction
`millis() - timerStart` made explicit.
-/

namespace Comms

/-- Constant `CHAR_LIMIT` from comms.h: maximum number of characters read from Serial. -/
def CHAR_LIMIT : Nat := 20

/-- Constant `LINE_TERMINATOR` from comms.h. -/
def LINE_TERMINATOR : Char := '\n'

/-- The `Command` enum.  comms.cpp assigns `Command::help` in `parseMessage`,
so the variant set used by the implementation is `{draw, fill, help}`. -/
inductive Command where
  | draw
  | fill
  | help
deriving DecidableEq, Repr

/-- The `Message` struct from comms.h. -/
structure Message where
  cmd : Command
  x : Int
  y : Int
  state : Bool
  is_valid : Bool
  error_msg : List Char
deriving DecidableEq, Repr

/-- Function `messageInit` from comms.cpp: default values for a `Message`. -/
def messageInit : Message :=
  { cmd := Command.draw, x := 0, y := 0, state := false,
    is_valid := false, error_msg := [] }

/-- Arduino `String::charAt` (via `operator[]`): returns the character at the
index, or the NUL character `'\0'` when the index is out of range.  The call
site `input.charAt(input.length() - 1)` computes the index in unsigned
arithmetic, so for the empty string the index underflows and is out of range;
truncated `Nat` subtraction gives index `0`, likewise out of range on `[]`,
so the same default is returned. -/
def charAt (s : List Char) (i : Nat) : Char := s.getD i (Char.ofNat 0)

/-- Arduino `String::indexOf(' ')` restricted to what `parseMessage` needs:
the index of the first occurrence of the character, `none` for C's `-1`. -/
def indexOf (c : Char) : List Char → Option Nat
  | [] => none
  | a :: t => if a = c then some 0 else (indexOf c t).map (· + 1)

/-- Arduino `String::equalsIgnoreCase`: case-insensitive equality. -/
def eqIgnoreCase (a b : List Char) : Bool :=
  a.map Char.toLower = b.map Char.toLower

/-- C `isspace` for the "C" locale, the whitespace set `sscanf` skips. -/
def isSpaceC (c : Char) : Bool :=
  c = ' ' ∨ c = '\t' ∨ c = '\n' ∨ c = '\x0b' ∨ c = '\x0c' ∨ c = '\r'

/-- C `isdigit`. -/
def isDigitC (c : Char) : Bool := '0' ≤ c ∧ c ≤ '9'

/-- Numeric value of a decimal digit character. -/
def digitVal (c : Char) : Nat := c.toNat - 48

/-- Value of a big-endian run of decimal digit characters. -/
def valChars (ds : List Char) : Nat :=
  ds.foldl (fun a c => 10 * a + digitVal c) 0

/-- The `sscanf` `%d` digit run after the sign: a maximal nonempty run of decimal digits;
fails when no digit is present. -/
def scanUInt (s : List Char) : Option (Nat × List Char) :=
  match s.takeWhile isDigitC with
  | [] => none
  | ds => some (valChars ds, s.dropWhile isDigitC)

/-- The `sscanf` `%d` body after the whitespace skip: optional sign, then a nonempty
digit run.  Matching failure (no digit after the optional sign) yields
`none`. -/
def scanIntAux : List Char → Option (Int × List Char)
  | [] => none
  | c :: u =>
    if c = '-' then (scanUInt u).map (fun p => (-(p.1 : Int), p.2))
    else if c = '+' then (scanUInt u).map (fun p => ((p.1 : Int), p.2))
    else (scanUInt (c :: u)).map (fun p => ((p.1 : Int), p.2))

/-- The `sscanf` `%d` conversion: skip whitespace, then sign and digits. -/
def scanInt (s : List Char) : Option (Int × List Char) :=
  scanIntAux (s.dropWhile isSpaceC)

/-- Decimal digit character: `'0' + d`. -/
def decDigit (d : Nat) : Char := Char.ofNat (48 + d)

/-- Base-10 rendering of a natural number, most significant digit first. -/
def decChars (n : Nat) : List Char :=
  if n = 0 then ['0'] else (Nat.digits 10 n).reverse.map decDigit

/-- Base-10 rendering of an integer, `-` sign for negatives: the shape of
every base-10 integer token the spec quantifies over. -/
def intChars (k : Int) : List Char :=
  if k < 0 then '-' :: decChars k.natAbs else decChars k.toNat

/-- The call `sscanf(args, "%d %d %d", …)` succeeding with `n == 3`: the three scanned
integers.  `none` models every return value `n ≠ 3` (0, 1 or 2 conversions,
or EOF).  Scanning stops after the third integer: whatever trails it is
ignored, exactly as `sscanf` ignores it. -/
def scan3 (s : List Char) : Option (Int × Int × Int) :=
  match scanInt s with
  | none => none
  | some (x, s1) =>
    match scanInt s1 with
    | none => none
    | some (y, s2) =>
      match scanInt s2 with
      | none => none
      | some (z, _) => some (x, y, z)

/-- The call `sscanf(args, "%d", …)` succeeding with `n == 1`. -/
def scan1 (s : List Char) : Option Int :=
  (scanInt s).map Prod.fst

/-- Function `parseDrawArgs` from comms.cpp: on `n == 3` writes `x`, `y` and `state`
(the C `int`-to-`bool` assignment folds `state` to `state ≠ 0`); otherwise
only clears `is_valid`. -/
def parseDrawArgs (args : List Char) (msg : Message) : Message :=
  match scan3 args with
  | some (x, y, state) =>
      { msg with x := x, y := y, state := decide (state ≠ 0) }
  | none => { msg with is_valid := false }

/-- Function `parseFillArgs` from comms.cpp: on `n == 1` writes `state`; otherwise
only clears `is_valid`. -/
def parseFillArgs (args : List Char) (msg : Message) : Message :=
  match scan1 args with
  | some state => { msg with state := decide (state ≠ 0) }
  | none => { msg with is_valid := false }

/-- The literal `"No line terminator found"`. -/
def noTermMsg : List Char := String.toList "No line terminator found"

/-- The literal `"Unrecognized command: "`. -/
def unrecognizedMsg : List Char := String.toList "Unrecognized command: "

/-- The verb/argument split inside `parseMessage`: `verbEnd = input.indexOf(' ')`;
with no space, `verbStr` is the whole line minus the terminator and `argStr`
stays the empty default; otherwise `verbStr = input.substring(0, verbEnd)`
and `argStr = input.substring(verbEnd + 1)` (which keeps the terminator). -/
def splitVerb (input : List Char) : List Char × List Char :=
  match indexOf ' ' input with
  | none => (input.take (input.length - 1), [])
  | some i => (input.take i, input.drop (i + 1))

/-- Function `parseMessage` from comms.cpp.  Requires the trailing terminator, splits
the line at the first space into verb and argument parts, dispatches on the
verb case-insensitively, and delegates argument parsing. -/
def parseMessage (input : List Char) (msg : Message) : Message :=
  if charAt input (input.length - 1) ≠ LINE_TERMINATOR then
    { msg with is_valid := false, error_msg := noTermMsg }
  else
    let verbStr := (splitVerb input).1
    let argStr := (splitVerb input).2
    let msg1 := { msg with is_valid := true }
    if eqIgnoreCase verbStr (String.toList "draw") then
      parseDrawArgs argStr { msg1 with cmd := Command.draw }
    else if eqIgnoreCase verbStr (String.toList "fill") then
      parseFillArgs argStr { msg1 with cmd := Command.fill }
    else if eqIgnoreCase verbStr (String.toList "help") then
      { msg1 with cmd := Command.help }
    else
      { msg with is_valid := false, error_msg := unrecognizedMsg ++ input }

/-- The static timer state of `readStringUntil` (`timerRunning` /
`timerStart` in comms.cpp). -/
structure RTimer where
  running : Bool
  start : Nat
deriving DecidableEq, Repr

/-- Constant `timeout_ms` from comms.cpp: 1 second; 0 would disable the timeout. -/
def timeout_ms : Nat := 1000

/-- The C expression `millis() - timerStart` on `unsigned long` (32-bit on
the AVR target): subtraction modulo `2^32`. -/
def elapsed (now start : Nat) : Nat :=
  (now % 4294967296 + 4294967296 - start % 4294967296) % 4294967296

/-- Result of one `readStringUntil` call: the line buffer (`input`, passed
by reference in C), the static timer state, the bytes still waiting in the
Serial receive buffer, and the boolean return value (`true` = line complete). -/
structure ReadResult where
  input : List Char
  timer : RTimer
  avail : List Char
  done : Bool
deriving DecidableEq, Repr

/-- The `while (Serial.available())` loop of `readStringUntil`: consumes
bytes from the front of `avail`, appending each to `input`.  Each iteration
first clears `timerRunning`; returning on the terminator or on the length
cap therefore leaves the timer disarmed, while falling through re-arms it at
the current time (`timeout_ms > 0`). -/
def readLoop (untilC : Char) (charLimit : Nat) (now : Nat) :
    List Char → List Char → RTimer → ReadResult
  | [], input, timer => ⟨input, timer, [], false⟩
  | c :: rest, input, timer =>
    let timer1 : RTimer := ⟨false, timer.start⟩
    let input1 := input ++ [c]
    if c = untilC then ⟨input1, timer1, rest, true⟩
    else if charLimit ≠ 0 ∧ charLimit ≤ input1.length then
      ⟨input1, timer1, rest, true⟩
    else
      readLoop untilC charLimit now rest input1
        (if timeout_ms > 0 then ⟨true, now⟩ else timer1)

/-- Function `readStringUntil` from comms.cpp, one non-blocking call ("tick"): drain
the available bytes, then, if the line is still incomplete, check the
timeout with the strict comparison `(millis() - timerStart) > timeout_ms`. -/
def readStringUntil (input : List Char) (timer : RTimer) (avail : List Char)
    (untilC : Char) (charLimit : Nat) (now : Nat) : ReadResult :=
  let r := readLoop untilC charLimit now avail input timer
  if r.done then r
  else if r.timer.running ∧ elapsed now r.timer.start > timeout_ms then
    ⟨r.input, ⟨false, r.timer.start⟩, r.avail, true⟩
  else r

/-- State carried by the driver loop between ticks. -/
structure DriverState where
  buf : List Char
  timer : RTimer
  msg : Message
deriving DecidableEq, Repr

/-- Modelled from the spec: the sketch's `loop()` (the `.ino` driver is not
under src/).  Per spec §4.3 and §4.1, each tick calls the accumulator with
the configured terminator and `CHAR_LIMIT`; on `LineReady` it hands the line
to `parseMessage` and "resets LineBuffer to empty ... preparing for the next
line"; on `Pending` it returns with no further action. -/
def driverTick (st : DriverState) (avail : List Char) (now : Nat) :
    DriverState :=
  let r := readStringUntil st.buf st.timer avail LINE_TERMINATOR CHAR_LIMIT now
  if r.done then ⟨[], r.timer, parseMessage r.input st.msg⟩
  else ⟨r.input, r.timer, st.msg⟩

/-! ### Helper lemmas -/

theorem readLoop_avail_suffix (u : Char) (cl now : Nat) (avail : List Char) :
    ∀ (input : List Char) (t : RTimer),
      (readLoop u cl now avail input t).avail <:+ avail := by
  induction avail with
  | nil => intro input t; simp [readLoop]
  | cons c rest ih =>
    intro input t
    simp only [readLoop]
    split
    · exact List.suffix_cons c rest
    · split
      · exact List.suffix_cons c rest
      · exact (ih _ _).trans (List.suffix_cons c rest)

theorem readLoop_done_not_running (u : Char) (cl now : Nat)
    (avail : List Char) :
    ∀ (input : List Char) (t : RTimer),
      (readLoop u cl now avail input t).done = true →
      (readLoop u cl now avail input t).timer.running = false := by
  induction avail with
  | nil => intro input t h; simp [readLoop] at h
  | cons c rest ih =>
    intro input t
    simp only [readLoop]
    split
    · intro _; rfl
    · split
      · intro _; rfl
      · exact ih _ _

theorem readStringUntil_done_not_running (input : List Char) (t : RTimer)
    (avail : List Char) (u : Char) (cl now : Nat)
    (h : (readStringUntil input t avail u cl now).done = true) :
    (readStringUntil input t avail u cl now).timer.running = false := by
  dsimp only [readStringUntil] at h ⊢
  split
  · next hd => exact readLoop_done_not_running u cl now avail input t hd
  · next hd =>
    split
    · rfl
    · next hc =>
      rw [if_neg hd, if_neg hc] at h
      exact absurd h hd

theorem readLoop_append (u : Char) (cl now : Nat) (xs : List Char) :
    ∀ (ys input : List Char) (t : RTimer) (i₁ : List Char) (t₁ : RTimer),
      readLoop u cl now xs input t = ⟨i₁, t₁, [], false⟩ →
      readLoop u cl now (xs ++ ys) input t = readLoop u cl now ys i₁ t₁ := by
  induction xs with
  | nil =>
    intro ys input t i₁ t₁ h
    simp only [readLoop, ReadResult.mk.injEq, and_true] at h
    rw [List.nil_append, h.1, h.2]
  | cons c rest ih =>
    intro ys input t i₁ t₁ h
    rw [List.cons_append]
    by_cases h1 : c = u
    · simp only [readLoop, if_pos h1] at h
      simp at h
    · by_cases h2 : cl ≠ 0 ∧ cl ≤ (input ++ [c]).length
      · simp only [readLoop, if_neg h1, if_pos h2] at h
        simp at h
      · simp only [readLoop, if_neg h1, if_neg h2] at h ⊢
        exact ih _ _ _ _ _ h

theorem elapsed_self (now : Nat) : elapsed now now = 0 := by
  unfold elapsed
  omega

theorem decDigit_spec (d : Nat) (hd : d < 10) :
    isDigitC (decDigit d) = true ∧ isSpaceC (decDigit d) = false ∧
    decDigit d ≠ '-' ∧ decDigit d ≠ '+' ∧ digitVal (decDigit d) = d := by
  interval_cases d <;> exact ⟨rfl, rfl, by decide, by decide, rfl⟩

theorem decChars_mem (n : Nat) :
    ∀ c ∈ decChars n, ∃ d, d < 10 ∧ c = decDigit d := by
  intro c hc
  unfold decChars at hc
  split at hc
  · simp at hc
    exact ⟨0, by norm_num, by rw [hc]; rfl⟩
  · simp only [List.mem_map, List.mem_reverse] at hc
    obtain ⟨d, hd, rfl⟩ := hc
    exact ⟨d, Nat.digits_lt_base (by norm_num) hd, rfl⟩

theorem decChars_all_digits (n : Nat) :
    ∀ c ∈ decChars n, isDigitC c = true := by
  intro c hc
  obtain ⟨d, hd, rfl⟩ := decChars_mem n c hc
  exact (decDigit_spec d hd).1

theorem decChars_ne_nil (n : Nat) : decChars n ≠ [] := by
  unfold decChars
  split
  · simp
  · simp only [ne_eq, List.map_eq_nil_iff, List.reverse_eq_nil_iff]
    simp [Nat.digits_ne_nil_iff_ne_zero, *]

theorem decChars_head_props (n : Nat) (c0 : Char) (cs : List Char)
    (h : decChars n = c0 :: cs) :
    isSpaceC c0 = false ∧ c0 ≠ '-' ∧ c0 ≠ '+' := by
  have hm : c0 ∈ decChars n := by rw [h]; exact List.mem_cons_self _ _
  obtain ⟨d, hd, rfl⟩ := decChars_mem n c0 hm
  have hs := decDigit_spec d hd
  exact ⟨hs.2.1, hs.2.2.1, hs.2.2.2.1⟩

theorem valChars_append_digit (xs : List Char) (c : Char) :
    valChars (xs ++ [c]) = 10 * valChars xs + digitVal c := by
  unfold valChars
  rw [List.foldl_append]
  rfl

theorem valChars_decChars (n : Nat) : valChars (decChars n) = n := by
  induction n using Nat.strong_induction_on with
  | _ n ih =>
    by_cases h0 : n = 0
    · subst h0; decide
    · have hdig : Nat.digits 10 n = n % 10 :: Nat.digits 10 (n / 10) :=
        Nat.digits_def' (by norm_num) (Nat.pos_of_ne_zero h0)
      unfold decChars
      rw [if_neg h0, hdig]
      simp only [List.reverse_cons, List.map_append, List.map_cons,
        List.map_nil]
      rw [valChars_append_digit]
      have hd : digitVal (decDigit (n % 10)) = n % 10 :=
        (decDigit_spec (n % 10) (Nat.mod_lt _ (by norm_num))).2.2.2.2
      rw [hd]
      by_cases hq : n / 10 = 0
      · rw [hq, Nat.digits_zero]
        simp only [List.reverse_nil, List.map_nil]
        have : valChars [] = 0 := rfl
        rw [this]
        omega
      · have hv : valChars ((Nat.digits 10 (n / 10)).reverse.map decDigit)
            = n / 10 := by
          have h2 := ih (n / 10)
            (Nat.div_lt_self (Nat.pos_of_ne_zero h0) (by norm_num))
          unfold decChars at h2
          rwa [if_neg hq] at h2
        rw [hv]
        omega

theorem takeWhile_append_all {p : Char → Bool} (xs : List Char) :
    ∀ (ys : List Char), (∀ c ∈ xs, p c = true) →
      (∀ c, ys.head? = some c → p c = false) →
      (xs ++ ys).takeWhile p = xs ∧ (xs ++ ys).dropWhile p = ys := by
  induction xs with
  | nil =>
    intro ys _ h2
    cases ys with
    | nil => simp
    | cons c t =>
      have hc := h2 c rfl
      simp [List.takeWhile, List.dropWhile, hc]
  | cons a xs ih =>
    intro ys h1 h2
    have ha : p a = true := h1 a (List.mem_cons_self a xs)
    have hrest := ih ys (fun c hc => h1 c (List.mem_cons_of_mem a hc)) h2
    simp [List.takeWhile, List.dropWhile, ha, hrest.1, hrest.2]

theorem dropWhile_append_all {p : Char → Bool} (xs : List Char) :
    ∀ (ys : List Char), (∀ c ∈ xs, p c = true) →
      (xs ++ ys).dropWhile p = ys.dropWhile p := by
  induction xs with
  | nil => intro ys _; rfl
  | cons a xs ih =>
    intro ys h1
    have ha : p a = true := h1 a (List.mem_cons_self a xs)
    simp only [List.cons_append, List.dropWhile, ha]
    exact ih ys (fun c hc => h1 c (List.mem_cons_of_mem a hc))

theorem dropWhile_cons_false {p : Char → Bool} (c : Char) (l : List Char)
    (h : p c = false) : (c :: l).dropWhile p = c :: l := by
  simp [List.dropWhile, h]

theorem scanUInt_append (ds rest : List Char) (hne : ds ≠ [])
    (hds : ∀ c ∈ ds, isDigitC c = true)
    (hrest : ∀ c, rest.head? = some c → isDigitC c = false) :
    scanUInt (ds ++ rest) = some (valChars ds, rest) := by
  have h := takeWhile_append_all ds rest hds hrest
  unfold scanUInt
  rw [h.1, h.2]
  cases ds with
  | nil => exact absurd rfl hne
  | cons a t => rfl

theorem scanInt_intChars (k : Int) (rest : List Char)
    (hrest : ∀ c, rest.head? = some c → isDigitC c = false) :
    scanInt (intChars k ++ rest) = some (k, rest) := by
  by_cases hk : k < 0
  · have h1 := scanUInt_append (decChars k.natAbs) rest (decChars_ne_nil _)
      (decChars_all_digits _) hrest
    rw [intChars, if_pos hk, List.cons_append]
    unfold scanInt
    rw [dropWhile_cons_false '-' _ (by decide)]
    simp only [scanIntAux, if_pos rfl, h1, valChars_decChars,
      Option.map_some']
    have : -((k.natAbs : Nat) : Int) = k := by omega
    rw [this]
    simp
  · have h1 := scanUInt_append (decChars k.toNat) rest (decChars_ne_nil _)
      (decChars_all_digits _) hrest
    rw [intChars, if_neg hk]
    rcases hdc : decChars k.toNat with _ | ⟨c0, cs⟩
    · exact absurd hdc (decChars_ne_nil _)
    · have hp := decChars_head_props k.toNat c0 cs hdc
      have hv : valChars (c0 :: cs) = k.toNat := by
        rw [← hdc]; exact valChars_decChars _
      rw [hdc] at h1
      unfold scanInt
      rw [List.cons_append, dropWhile_cons_false c0 _ hp.1]
      simp only [scanIntAux, if_neg hp.2.1, if_neg hp.2.2,
        ← List.cons_append, h1, hv, Option.map_some']
      have : ((k.toNat : Nat) : Int) = k := by omega
      rw [this]

theorem scanInt_ws_intChars (ws : List Char) (k : Int) (rest : List Char)
    (hws : ∀ c ∈ ws, isSpaceC c = true)
    (hrest : ∀ c, rest.head? = some c → isDigitC c = false) :
    scanInt (ws ++ (intChars k ++ rest)) = some (k, rest) := by
  have h := scanInt_intChars k rest hrest
  unfold scanInt at h ⊢
  rw [dropWhile_append_all ws _ hws]
  exact h

theorem charAt_last (xs : List Char) (c : Char) :
    charAt (xs ++ [c]) ((xs ++ [c]).length - 1) = c := by
  unfold charAt
  have h : (xs ++ [c]).length - 1 = xs.length := by simp
  rw [h, List.getD_append_right xs [c] _ xs.length le_rfl]
  simp

theorem digits_lt_ten (n : Nat) (h1 : 0 < n) (h2 : n < 10) :
    Nat.digits 10 n = [n] := by
  rw [Nat.digits_def' (by norm_num : (1:ℕ) < 10) h1, Nat.mod_eq_of_lt h2,
    Nat.div_eq_of_lt h2, Nat.digits_zero]

theorem intChars_3 : intChars 3 = ['3'] := by
  unfold intChars
  rw [if_neg (by norm_num)]
  unfold decChars
  rw [show (3 : Int).toNat = 3 from rfl]
  rw [if_neg (by norm_num), digits_lt_ten 3 (by norm_num) (by norm_num)]
  decide

theorem intChars_4 : intChars 4 = ['4'] := by
  unfold intChars
  rw [if_neg (by norm_num)]
  unfold decChars
  rw [show (4 : Int).toNat = 4 from rfl]
  rw [if_neg (by norm_num), digits_lt_ten 4 (by norm_num) (by norm_num)]
  decide

theorem parseMessage_draw_line (tail : List Char) (msg : Message)
    (hlast : charAt ('d':: 'r':: 'a':: 'w':: ' '::tail)
        (('d':: 'r':: 'a':: 'w':: ' '::tail).length - 1) = LINE_TERMINATOR) :
    parseMessage ('d':: 'r':: 'a':: 'w':: ' '::tail) msg =
      parseDrawArgs tail
        { msg with is_valid := true, cmd := Command.draw } := by
  have hidx : indexOf ' ' ('d':: 'r':: 'a':: 'w':: ' '::tail) = some 4 := by
    simp [indexOf]
  have hsplit : splitVerb ('d':: 'r':: 'a':: 'w':: ' '::tail)
      = (['d','r','a','w'], tail) := by
    unfold splitVerb
    rw [hidx]
    rfl
  simp only [parseMessage, hsplit]
  rw [if_neg (show ¬(charAt ('d':: 'r':: 'a':: 'w':: ' '::tail)
      (('d':: 'r':: 'a':: 'w':: ' '::tail).length - 1) ≠ LINE_TERMINATOR) from by
    simp only [ne_eq, not_not]; exact hlast)]
  rw [if_pos (show eqIgnoreCase ['d','r','a','w']
      (String.toList "draw") = true from by decide)]

end Comms

namespace Comms

/-! ### Claim theorems -/

/-- C1, counterexample: the claim requires
`parse("draw 3 4 1 99\n") = Err(MalformedArguments)`, but `sscanf` stops
after the third `%d` conversion, so the extra numeric token `99` is silently
ignored and the command is accepted as `Draw{x:3, y:4, state:true}`. -/
theorem c1_extra_numeric_tokens_accepted :
    parseMessage (String.toList "draw 3 4 1 99\n") messageInit =
      { messageInit with cmd := Command.draw, x := 3, y := 4,
                         state := true, is_valid := true } := by decide

/-- C1, amended: draw (resp. fill) argument parsing succeeds exactly when at
least three (resp. one) whitespace-separated base-10 integers can be scanned
from the front of the remainder; too few integer tokens or a non-integer
token where an integer is expected yield `Err(MalformedArguments)`
(`is_valid = false`), but extra tokens beyond the expected count are
silently ignored: `parse("draw 3 4\n")` is malformed while
`parse("draw 3 4 1 99\n")` succeeds as `Draw{x:3, y:4, state:true}`. -/
theorem c1_amended_arg_count :
    (parseMessage (String.toList "draw 3 4\n") messageInit =
      { messageInit with cmd := Command.draw, is_valid := false }) ∧
    (parseMessage (String.toList "draw x 4 1\n") messageInit =
      { messageInit with cmd := Command.draw, is_valid := false }) ∧
    (parseMessage (String.toList "draw 3 4 1\n") messageInit =
      { messageInit with cmd := Command.draw, x := 3, y := 4,
                         state := true, is_valid := true }) ∧
    (parseMessage (String.toList "draw 3 4 1 99\n") messageInit =
      { messageInit with cmd := Command.draw, x := 3, y := 4,
                         state := true, is_valid := true }) ∧
    (parseMessage (String.toList "fill\n") messageInit =
      { messageInit with cmd := Command.fill, is_valid := false }) ∧
    (parseMessage (String.toList "fill z\n") messageInit =
      { messageInit with cmd := Command.fill, is_valid := false }) ∧
    (parseMessage (String.toList "fill 1 99\n") messageInit =
      { messageInit with cmd := Command.fill, state := true,
                         is_valid := true }) := by decide

/-- C2, counterexample: the first byte of the line arrives at `t = 0`, a
second byte of the same line at `t = 600`.  At `t = 1100` strictly more than
the 1000 ms timeout has elapsed since the first byte, yet no completion is
reported, because the code restarts the timer on every appended byte: the
deadline is measured from the last byte, not the first. -/
theorem c2_timeout_not_from_first_byte :
    readStringUntil [] ⟨false, 0⟩ ['a'] '\n' 20 0 =
      ⟨['a'], ⟨true, 0⟩, [], false⟩ ∧
    readStringUntil ['a'] ⟨true, 0⟩ ['b'] '\n' 20 600 =
      ⟨['a', 'b'], ⟨true, 600⟩, [], false⟩ ∧
    elapsed 1100 0 > timeout_ms ∧
    (readStringUntil ['a', 'b'] ⟨true, 600⟩ [] '\n' 20 1100).done
      = false := by decide

/-- C2, amended: the read timeout is measured from the most recently
appended byte of the current line: appending a non-completing byte re-arms
the timer to the current tick's time (so later bytes of the same line DO
move the deadline), and when no bytes are available and the timer is armed,
the call reports completion exactly when strictly more than the timeout
duration has elapsed since the timer was last armed, emitting the partial
buffer unchanged and clearing the timer. -/
theorem c2_amended_timeout_from_last_byte (input : List Char) (b : Bool)
    (s : Nat) (c u : Char) (cl now now₂ : Nat)
    (hc : c ≠ u) (hcl : ¬(cl ≠ 0 ∧ cl ≤ (input ++ [c]).length)) :
    (readStringUntil input ⟨b, s⟩ [c] u cl now).timer = ⟨true, now⟩ ∧
    ((readStringUntil (input ++ [c]) ⟨true, now⟩ [] u cl now₂).done
        = decide (elapsed now₂ now > timeout_ms)) ∧
    ((readStringUntil (input ++ [c]) ⟨true, now⟩ [] u cl now₂).done = true →
      (readStringUntil (input ++ [c]) ⟨true, now⟩ [] u cl now₂).timer.running
          = false ∧
      (readStringUntil (input ++ [c]) ⟨true, now⟩ [] u cl now₂).input
          = input ++ [c]) := by
  refine ⟨?_, ?_, ?_⟩
  · have hcl' : ¬(¬cl = 0 ∧ cl ≤ input.length + 1) := by
      simpa using hcl
    simp [readStringUntil, readLoop, hc, hcl', elapsed_self, timeout_ms]
  · by_cases hgt : elapsed now₂ now > timeout_ms
    · simp [readStringUntil, readLoop, hgt]
    · simp [readStringUntil, readLoop, hgt]
  · intro h
    by_cases hgt : elapsed now₂ now > timeout_ms
    · constructor
      · exact readStringUntil_done_not_running _ _ _ _ _ _ h
      · simp [readStringUntil, readLoop, hgt]
    · exfalso
      simp [readStringUntil, readLoop, hgt] at h

theorem c2_amended_timeout_from_last_byte_witness :
    (readStringUntil [] ⟨false, 7⟩ ['a'] '\n' 20 5).timer = ⟨true, 5⟩ ∧
    ((readStringUntil (([] : List Char) ++ ['a']) ⟨true, 5⟩ [] '\n' 20 1006).done
        = decide (elapsed 1006 5 > timeout_ms)) ∧
    ((readStringUntil (([] : List Char) ++ ['a']) ⟨true, 5⟩ [] '\n' 20 1006).done = true →
      (readStringUntil (([] : List Char) ++ ['a']) ⟨true, 5⟩ [] '\n' 20 1006).timer.running
          = false ∧
      (readStringUntil (([] : List Char) ++ ['a']) ⟨true, 5⟩ [] '\n' 20 1006).input
          = ([] : List Char) ++ ['a']) :=
  c2_amended_timeout_from_last_byte [] false 7 'a' '\n' 20 5 1006
    (by decide) (by decide)

/-- C3: round-trip parsing: `"draw 3 4 1\n"` yields a valid
`Draw{x:3, y:4, state:true}`, `"FILL 0\n"` yields `Fill{state:false}`
(case-insensitive verb match), `"help\n"` yields `Help`; and for every
integer `k` rendered as a base-10 token, `"draw 3 4 <k>\n"` parses with
`state = (k ≠ 0)` — negative and large integers are accepted and folded. -/
theorem c3_roundtrip_and_state_fold :
    (parseMessage (String.toList "draw 3 4 1\n") messageInit =
      { messageInit with cmd := Command.draw, x := 3, y := 4,
                         state := true, is_valid := true }) ∧
    (parseMessage (String.toList "FILL 0\n") messageInit =
      { messageInit with cmd := Command.fill, state := false,
                         is_valid := true }) ∧
    (parseMessage (String.toList "help\n") messageInit =
      { messageInit with cmd := Command.help, is_valid := true }) ∧
    ∀ (k : Int) (msg : Message),
      parseMessage (String.toList "draw 3 4 " ++ (intChars k ++ ['\n'])) msg
        = { msg with cmd := Command.draw, x := 3, y := 4,
                     state := decide (k ≠ 0), is_valid := true } := by
  refine ⟨by decide, by decide, by decide, ?_⟩
  intro k msg
  have hs : String.toList "draw 3 4 " ++ (intChars k ++ ['\n'])
      = 'd':: 'r':: 'a':: 'w':: ' '::('3':: ' ':: '4':: ' '::(intChars k ++ ['\n']))
      := rfl
  rw [hs]
  have hlast := charAt_last
    ('d':: 'r':: 'a':: 'w':: ' ':: '3':: ' ':: '4':: ' '::intChars k) '\n'
  simp only [List.cons_append] at hlast
  rw [parseMessage_draw_line ('3':: ' ':: '4':: ' '::(intChars k ++ ['\n']))
    msg hlast]
  have hr1 : ∀ c : Char,
      (' ':: '4':: ' '::(intChars k ++ ['\n'])).head? = some c →
      isDigitC c = false := by
    intro c hc
    rw [List.head?_cons] at hc
    injection hc with h2
    rw [← h2]
    rfl
  have hr2 : ∀ c : Char, (' '::(intChars k ++ ['\n'])).head? = some c →
      isDigitC c = false := by
    intro c hc
    rw [List.head?_cons] at hc
    injection hc with h2
    rw [← h2]
    rfl
  have hr3 : ∀ c : Char, (['\n'] : List Char).head? = some c →
      isDigitC c = false := by
    intro c hc
    rw [List.head?_cons] at hc
    injection hc with h2
    rw [← h2]
    rfl
  have hsp : ∀ c : Char, c ∈ ([' '] : List Char) → isSpaceC c = true := by
    intro c hc
    simp only [List.mem_singleton] at hc
    rw [hc]
    rfl
  have s1 : scanInt ('3':: ' ':: '4':: ' '::(intChars k ++ ['\n']))
      = some (3, ' ':: '4':: ' '::(intChars k ++ ['\n'])) := by
    have h := scanInt_ws_intChars [] 3
      (' ':: '4':: ' '::(intChars k ++ ['\n'])) (by intro c hc; simp at hc)
      hr1
    rw [intChars_3] at h
    simpa using h
  have s2 : scanInt (' ':: '4':: ' '::(intChars k ++ ['\n']))
      = some (4, ' '::(intChars k ++ ['\n'])) := by
    have h := scanInt_ws_intChars [' '] 4 (' '::(intChars k ++ ['\n']))
      hsp hr2
    rw [intChars_4] at h
    simpa using h
  have s3 : scanInt (' '::(intChars k ++ ['\n'])) = some (k, ['\n']) := by
    have h := scanInt_ws_intChars [' '] k ['\n'] hsp hr3
    simpa using h
  have hscan3 : scan3 ('3':: ' ':: '4':: ' '::(intChars k ++ ['\n']))
      = some (3, 4, k) := by
    simp only [scan3, s1, s2, s3]
  simp only [parseDrawArgs, hscan3]

/-- C4: whenever `readStringUntil` reports a completed line (by terminator,
length cap, or timeout), its static timer ends the call disarmed, and the
driver tick hands the line to the parser and resets the line buffer to
empty, so the next tick starts with an empty buffer and no armed timer. -/
theorem c4_completion_resets_state (st : DriverState) (avail : List Char)
    (now : Nat)
    (h : (readStringUntil st.buf st.timer avail LINE_TERMINATOR CHAR_LIMIT
            now).done = true) :
    (driverTick st avail now).buf = [] ∧
    (driverTick st avail now).timer.running = false := by
  have ht := readStringUntil_done_not_running st.buf st.timer avail
    LINE_TERMINATOR CHAR_LIMIT now h
  dsimp only [driverTick]
  rw [if_pos h]
  exact ⟨rfl, ht⟩

theorem c4_completion_resets_state_witness :
    (driverTick ⟨['p'], ⟨true, 0⟩, messageInit⟩ ['\n'] 3).buf = [] ∧
    (driverTick ⟨['p'], ⟨true, 0⟩, messageInit⟩ ['\n'] 3).timer.running
      = false :=
  c4_completion_resets_state ⟨['p'], ⟨true, 0⟩, messageInit⟩ ['\n'] 3
    (by decide)

/-- C5: a completed line whose last character is not the terminator is
rejected as `MissingTerminator` (`is_valid = false`, the missing-terminator
error message) with every other `Message` field left untouched: no verb
matching or argument parsing happens. -/
theorem c5_missing_terminator_stops_parsing (input : List Char)
    (msg : Message)
    (h : charAt input (input.length - 1) ≠ LINE_TERMINATOR) :
    parseMessage input msg =
      { msg with is_valid := false, error_msg := noTermMsg } := by
  simp only [parseMessage]
  rw [if_pos h]

theorem c5_missing_terminator_stops_parsing_witness :
    parseMessage (String.toList "draw 3 4 1")
        ⟨Command.fill, 7, 8, true, true, ['e']⟩ =
      { Message.mk Command.fill 7 8 true true ['e'] with
          is_valid := false, error_msg := noTermMsg } :=
  c5_missing_terminator_stops_parsing _ _ (by decide)

/-- C6: when the bytes already consumed this tick (`xs`) leave the line
incomplete and the next byte `c` completes it — it equals the terminator,
or it makes the buffer reach a nonzero `char_limit` — `readStringUntil`
returns `true` immediately with the buffer ending at `c`, the timer
disarmed, and the remaining available bytes `rest` left unconsumed. -/
theorem c6_completion_leaves_rest_unconsumed (input i₁ : List Char)
    (t t₁ : RTimer) (xs rest : List Char) (c u : Char) (cl now : Nat)
    (hpre : readLoop u cl now xs input t = ⟨i₁, t₁, [], false⟩)
    (hc : c = u ∨ (cl ≠ 0 ∧ cl ≤ (i₁ ++ [c]).length)) :
    readStringUntil input t (xs ++ c :: rest) u cl now =
      ⟨i₁ ++ [c], ⟨false, t₁.start⟩, rest, true⟩ := by
  have hl : readLoop u cl now (xs ++ c :: rest) input t =
      ⟨i₁ ++ [c], ⟨false, t₁.start⟩, rest, true⟩ := by
    rw [readLoop_append u cl now xs (c :: rest) input t i₁ t₁ hpre]
    by_cases h1 : c = u
    · simp [readLoop, h1]
    · rcases hc with hc | hc
      · exact absurd hc h1
      · obtain ⟨hc0, hcle⟩ := hc
        have hcle' : cl ≤ i₁.length + 1 := by simpa using hcle
        simp [readLoop, h1, hc0, hcle']
  dsimp only [readStringUntil]
  rw [hl]
  rfl

theorem c6_completion_leaves_rest_unconsumed_witness :
    readStringUntil [] ⟨false, 0⟩ (['h', 'i'] ++ '\n' :: ['y', 'o'])
        '\n' 20 0 =
      ⟨['h', 'i'] ++ ['\n'], ⟨false, 0⟩, ['y', 'o'], true⟩ :=
  c6_completion_leaves_rest_unconsumed [] ['h', 'i'] ⟨false, 0⟩ ⟨true, 0⟩
    ['h', 'i'] ['y', 'o'] '\n' '\n' 20 0 (by decide) (Or.inl rfl)

/-- C7: the timeout completion uses the strict comparison
`(millis() - timerStart) > timeout_ms`: when the elapsed time equals the
timeout exactly, the call does not report the line as complete. -/
theorem c7_timeout_boundary_no_fire (input : List Char) (t : RTimer)
    (u : Char) (cl now : Nat) (hr : t.running = true)
    (he : elapsed now t.start = timeout_ms) :
    (readStringUntil input t [] u cl now).done = false := by
  simp [readStringUntil, readLoop, hr, he]

theorem c7_timeout_boundary_no_fire_witness :
    (readStringUntil ['a'] ⟨true, 0⟩ [] '\n' 20 1000).done = false :=
  c7_timeout_boundary_no_fire ['a'] ⟨true, 0⟩ '\n' 20 1000 rfl (by decide)

/-- C8: one `readStringUntil` call is a total function of the line buffer,
timer state and currently-available bytes; it consumes bytes only from the
front of the available list, leaving a suffix, so it consumes at most the
bytes available this tick and performs no blocking read. -/
theorem c8_consumes_at_most_available (input : List Char) (t : RTimer)
    (avail : List Char) (u : Char) (cl now : Nat) :
    (readStringUntil input t avail u cl now).avail <:+ avail ∧
    (readStringUntil input t avail u cl now).avail.length ≤ avail.length := by
  have hs : (readStringUntil input t avail u cl now).avail <:+ avail := by
    dsimp only [readStringUntil]
    split
    · exact readLoop_avail_suffix u cl now avail input t
    · split
      · exact readLoop_avail_suffix u cl now avail input t
      · exact readLoop_avail_suffix u cl now avail input t
  exact ⟨hs, hs.length_le⟩

/-- C9: `input.charAt(input.length() - 1)` on the empty string is an
out-of-range access returning the NUL character in the embedding (Arduino's
`charAt` returns 0 out of range), so `parseMessage ""` reports the
missing-terminator error instead of reading out of bounds, touching no
other field. -/
theorem c9_empty_line_safe :
    charAt [] (([] : List Char).length - 1) = Char.ofNat 0 ∧
    ∀ msg : Message, parseMessage [] msg =
      { msg with is_valid := false, error_msg := noTermMsg } := by
  refine ⟨rfl, fun msg => ?_⟩
  simp only [parseMessage]
  rw [if_pos (by decide)]

/-- C10: when draw (resp. fill) argument scanning fails, the `Message`
fields `x`, `y` and `state` keep their previous values — only `is_valid` is
cleared; no partially-scanned argument value is written. -/
theorem c10_failed_args_preserve_fields (args : List Char) (msg : Message) :
    (scan3 args = none →
      parseDrawArgs args msg = { msg with is_valid := false }) ∧
    (scan1 args = none →
      parseFillArgs args msg = { msg with is_valid := false }) := by
  constructor
  · intro h; simp [parseDrawArgs, h]
  · intro h; simp [parseFillArgs, h]

theorem c10_failed_args_preserve_fields_witness :
    (parseDrawArgs (String.toList "3 4\n")
        ⟨Command.draw, 7, 8, true, true, []⟩ =
      { Message.mk Command.draw 7 8 true true [] with is_valid := false }) ∧
    (parseFillArgs (String.toList "z\n")
        ⟨Command.fill, 7, 8, true, true, []⟩ =
      { Message.mk Command.fill 7 8 true true [] with is_valid := false }) :=
  ⟨(c10_failed_args_preserve_fields _ _).1 (by decide),
   (c10_failed_args_preserve_fields _ _).2 (by decide)⟩

end Comms

